import Mathlib

/-!
Verification development for the NestJS-RBAC repository.

The definitions below are a shallow embedding of the core of this repository:
the hierarchy comparator and authorization context
(`src/modules/auth/services/authorization.service.ts`), the policy classes
(`src/common/policies/user.policy.ts`, `role.policy.ts`), the role mutation
engine (`src/modules/roles/roles.service.ts`) and the user update rules
(`UsersService.update`).  The relational store is modelled as explicit
record state; each Prisma `$transaction` block is a pure state transition
whose commit/abort outcome is an explicit boolean parameter.  TypeScript
`number` columns become `Int`, nullable/optional values become `Option`,
and thrown Nest exceptions become an `Err` sum returned in `Except`.
-/

namespace Rbac

/-- A row of the `Role` table (`prisma/schema.prisma`): id, unique name and
the numeric `hierarchy` rank. -/
structure Role where
  id : Nat
  name : String
  hierarchy : Int
deriving Repr, DecidableEq

/-- A row of the `Permission` table: id and unique name. -/
structure Permission where
  id : Nat
  name : String
deriving Repr, DecidableEq

/-- A row of the `RolePermission` association table. -/
structure RolePerm where
  roleId : Nat
  permissionId : Nat
deriving Repr, DecidableEq

/-- A row of the `UserRole` association table. -/
structure UserRole where
  userId : Nat
  roleId : Nat
deriving Repr, DecidableEq

/-- A row of the `User` table (the credential hash is kept as an opaque
string; hashing itself is an external collaborator). -/
structure UserRec where
  id : Nat
  firstName : String
  lastName : String
  email : String
  password : String
deriving Repr, DecidableEq

/-- The `LoadedUser` shape held by the request-scoped
`AuthorizationService`: the user row plus its resolved roles and the
flattened permission set. -/
structure LoadedUser where
  info : UserRec
  roles : List Role
  permissions : List Permission
deriving Repr, DecidableEq

/-- The relational store visible to the services: the five tables plus the
autoincrement counter for role ids. -/
structure Db where
  roles : List Role
  permissions : List Permission
  rolePerms : List RolePerm
  userRoles : List UserRole
  users : List UserRec
  nextRoleId : Nat
deriving Repr, DecidableEq

/-- The Nest exception kinds thrown by the embedded services, plus
`runtimeTypeError` for an uncaught JavaScript `TypeError` (a property
access on `undefined`). -/
inductive Err where
  | conflict
  | badRequest
  | unauthorized
  | notFound
  | forbidden
  | internalError
  | runtimeTypeError
deriving Repr, DecidableEq

/-- The callback of the `Array.prototype.reduce` call in
`AuthorizationService.getBestHierarchyRole`:
`(prev, current) => prev.hierarchy > current.hierarchy ? prev : current`. -/
def bestStep (prev current : Role) : Role :=
  if prev.hierarchy > current.hierarchy then prev else current

/-- Embeds `AuthorizationService.getBestHierarchyRole`: returns `null` on an empty
list, otherwise `roles.reduce(bestStep)` (JavaScript `reduce` without an
initial value folds the tail with the head as accumulator). -/
def getBestHierarchyRole (roles : List Role) : Option Role :=
  match roles with
  | [] => none
  | r :: rs => some (rs.foldl bestStep r)

/-- Embeds `AuthorizationService.hasPermission`: `false` when no user is set,
otherwise whether the permission name appears in the flattened set. -/
def hasPermission (user : Option LoadedUser) (permission : String) : Bool :=
  match user with
  | none => false
  | some u => u.permissions.any (fun p => p.name = permission)

/-- Embeds `AuthorizationService.getAuthUserBestHierarchyRole`: `null` when no user
is set, otherwise the best role of the roles of the stored user. -/
def getAuthUserBestHierarchyRole (user : Option LoadedUser) : Option Role :=
  match user with
  | none => none
  | some u => getBestHierarchyRole u.roles

/-- The argument narrowing at the top of
`AuthorizationService.isAuthUserBestRoleHigherOrEqual`: a numeric argument
is resolved through `role.findUnique({ where: { id } })`, a role object is
used as-is. -/
def resolveRole (db : Db) (role : Sum Nat Role) : Option Role :=
  match role with
  | Sum.inl rid => db.roles.find? (fun r => r.id = rid)
  | Sum.inr r => some r

/-- Embeds `AuthorizationService.isAuthUserBestRoleHigherOrEqual`: false when the
target role or the best role of the user is missing, otherwise
`userHighestRole.hierarchy <= roleToCompare.hierarchy`. -/
def isAuthUserBestRoleHigherOrEqual (db : Db) (user : Option LoadedUser)
    (role : Sum Nat Role) : Bool :=
  match resolveRole db role with
  | none => false
  | some roleToCompare =>
    match getAuthUserBestHierarchyRole user with
    | none => false
    | some userHighestRole =>
      decide (userHighestRole.hierarchy ≤ roleToCompare.hierarchy)

/-- The `role.updateMany({ where: { hierarchy: { gte: h } }, data:
{ hierarchy: { increment: 1 } } })` statement used by `RolesService.create`
and `RolesService.update`. -/
def shiftRolesGE (h : Int) (rs : List Role) : List Role :=
  rs.map (fun r => if r.hierarchy ≥ h then { r with hierarchy := r.hierarchy + 1 } else r)

/-- The `role.updateMany({ where: { hierarchy: { gt: d } }, data:
{ hierarchy: { decrement: 1 } } })` statement used by `RolesService.remove`. -/
def decRolesGT (d : Int) (rs : List Role) : List Role :=
  rs.map (fun r => if r.hierarchy > d then { r with hierarchy := r.hierarchy - 1 } else r)

/-- Embeds `CreateRoleDto` (all three fields required; DTO validation enforces
`hierarchy >= 1` and integer permission ids). -/
structure CreateRoleDto where
  name : String
  hierarchy : Int
  permissionIds : List Nat
deriving Repr, DecidableEq

/-- Embeds `UpdateRoleDto = PartialType(CreateRoleDto)`: every field optional. -/
structure UpdateRoleDto where
  name : Option String
  hierarchy : Option Int
  permissionIds : Option (List Nat)
deriving Repr, DecidableEq

/-- Embeds `RolesService.create`, in source order.  `reqUser` is the loaded user the
controller passes (`authorizationService.getUser()!`), and the internal
`getAuthUserBestHierarchyRole()` call resolves against that same stored user,
so it is modelled as `getAuthUserBestHierarchyRole (some reqUser)`.  `txOk`
is the commit/abort outcome of the single `$transaction` block wrapping the
shift and the inserts; its `catch` rethrows as `InternalServerErrorException`.
Returns the thrown exception or unit, together with the committed store. -/
def rolesCreate (txOk : Bool) (db : Db) (dto : CreateRoleDto)
    (reqUser : LoadedUser) : Except Err Unit × Db :=
  if db.roles.any (fun r => r.name = dto.name) then
    (Except.error Err.conflict, db)
  else if ¬ ((db.permissions.filter (fun p => p.id ∈ dto.permissionIds)).length
      = dto.permissionIds.length) then
    (Except.error Err.badRequest, db)
  else if (dto.permissionIds.filter
      (fun i => ¬ (reqUser.permissions.map (fun p => p.id)).contains i)) ≠ [] then
    (Except.error Err.unauthorized, db)
  else
    match getAuthUserBestHierarchyRole (some reqUser) with
    | none => (Except.error Err.badRequest, db)
    | some userHighestRole =>
      if userHighestRole.hierarchy ≤ 0 then
        (Except.error Err.internalError, db)
      else if dto.hierarchy ≤ userHighestRole.hierarchy then
        (Except.error Err.unauthorized, db)
      else
        let hierarchyExists := db.roles.any (fun r => r.hierarchy = dto.hierarchy)
        if txOk then
          let shifted := if hierarchyExists then shiftRolesGE dto.hierarchy db.roles else db.roles
          let createdRole : Role := ⟨db.nextRoleId, dto.name, dto.hierarchy⟩
          (Except.ok (), { db with
            roles := shifted ++ [createdRole],
            rolePerms := db.rolePerms
              ++ dto.permissionIds.map (fun pid => ⟨db.nextRoleId, pid⟩),
            nextRoleId := db.nextRoleId + 1 })
        else (Except.error Err.internalError, db)

/-- Embeds `RolesService.update`, in source order.  The hierarchy shift runs in its
own `$transaction` (committed immediately); the write of the role row and
the permission sync run in a second, separate `$transaction`, whose
commit/abort outcome is `writeTxOk`.  JavaScript truthiness is kept: the
name-conflict check requires a non-empty new name, and the hierarchy
authorization check is skipped when the requested hierarchy is `0`
(`updateRoleDto.hierarchy && ...`), while the shift condition compares with
`!== undefined`. -/
def rolesUpdate (writeTxOk : Bool) (db : Db) (id : Nat) (dto : UpdateRoleDto)
    (reqUser : LoadedUser) : Except Err Unit × Db :=
  match db.roles.find? (fun r => r.id = id) with
  | none => (Except.error Err.notFound, db)
  | some existingRole =>
    if dto.name.any (fun n => !(n = "") && !(n = existingRole.name)
        && db.roles.any (fun r => r.name = n)) then
      (Except.error Err.conflict, db)
    else if dto.permissionIds.any (fun ids =>
        !((db.permissions.filter (fun p => p.id ∈ ids)).length = ids.length)) then
      (Except.error Err.badRequest, db)
    else if dto.permissionIds.any (fun ids => !((ids.filter
        (fun i => ¬ (reqUser.permissions.map (fun p => p.id)).contains i)) = [])) then
      (Except.error Err.unauthorized, db)
    else
      match getAuthUserBestHierarchyRole (some reqUser) with
      | none => (Except.error Err.badRequest, db)
      | some userHighestRole =>
        if userHighestRole.hierarchy ≤ 0 then
          (Except.error Err.internalError, db)
        else if dto.hierarchy.any (fun h =>
            !(h = 0) && (h ≤ userHighestRole.hierarchy)) then
          (Except.error Err.unauthorized, db)
        else
          -- First $transaction: shift ranks when the new rank is occupied.
          let dbShifted :=
            match dto.hierarchy with
            | some h =>
              if h = existingRole.hierarchy then db
              else if db.roles.any (fun r => r.hierarchy = h) then
                { db with roles := shiftRolesGE h db.roles }
              else db
            | none => db
          -- Second $transaction: write the role row and sync permissions.
          if writeTxOk then
            let newName := dto.name.getD existingRole.name
            let newHierarchy := dto.hierarchy.getD existingRole.hierarchy
            let roles2 := dbShifted.roles.map (fun r =>
              if r.id = id then { r with name := newName, hierarchy := newHierarchy } else r)
            let rolePerms2 :=
              match dto.permissionIds with
              | none => dbShifted.rolePerms
              | some ids =>
                let afterDelete := dbShifted.rolePerms.filter
                  (fun rp => ¬ (rp.roleId = id ∧ ¬ ids.contains rp.permissionId))
                let existingPermissionIds :=
                  (db.rolePerms.filter (fun rp => rp.roleId = id)).map
                    (fun rp => rp.permissionId)
                afterDelete ++ (ids.filter
                  (fun p => ¬ existingPermissionIds.contains p)).map
                    (fun pid => (⟨id, pid⟩ : RolePerm))
            (Except.ok (), { dbShifted with roles := roles2, rolePerms := rolePerms2 })
          else (Except.error Err.internalError, dbShifted)

/-- Embeds `RolesService.remove`, in source order.  `txOk` is the outcome of the
single `$transaction` wrapping the delete and the decrement; association
rows are removed by the schema setting `onDelete: Cascade`. -/
def rolesRemove (txOk : Bool) (db : Db) (id : Nat)
    (reqUser : LoadedUser) : Except Err Unit × Db :=
  match db.roles.find? (fun r => r.id = id) with
  | none => (Except.error Err.notFound, db)
  | some roleToDelete =>
    match getAuthUserBestHierarchyRole (some reqUser) with
    | none => (Except.error Err.badRequest, db)
    | some userHighestRole =>
      if userHighestRole.hierarchy ≤ 0 then
        (Except.error Err.internalError, db)
      else if roleToDelete.hierarchy ≤ userHighestRole.hierarchy then
        (Except.error Err.unauthorized, db)
      else if (db.userRoles.filter (fun ur => ur.roleId = id)) ≠ [] then
        (Except.error Err.conflict, db)
      else if txOk then
        (Except.ok (), { db with
          roles := decRolesGT roleToDelete.hierarchy
            (db.roles.filter (fun r => ¬ r.id = id)),
          rolePerms := db.rolePerms.filter (fun rp => ¬ rp.roleId = id),
          userRoles := db.userRoles.filter (fun ur => ¬ ur.roleId = id) })
      else (Except.error Err.internalError, db)

/-- Embeds `UpdateUserDto = PartialType(CreateUserDto)`. -/
structure UpdateUserDto where
  firstName : Option String
  lastName : Option String
  email : Option String
  password : Option String
  roleId : Option Nat
deriving Repr, DecidableEq

/-- Embeds `UsersService.update`, in source order.  `reqUser`/`reqUserRoles` are the
controller-supplied acting user and roles, and `authUser` is the stored
context consulted by `isAuthUserBestRoleHigherOrEqual`.  JavaScript
truthiness is kept (`if (updateUserDto.roleId)` skips the whole role block
for `roleId = 0`; the email check requires a non-empty string).  The final
`user.update` spreads the whole DTO into `data`, so a present `roleId`
reaches Prisma as an unknown argument and the call throws, caught and
rethrown as `InternalServerErrorException`; password hashing is opaque and
kept as the raw string. -/
def usersUpdate (db : Db) (id : Nat) (dto : UpdateUserDto) (reqUser : UserRec)
    (reqUserRoles : List Role) (authUser : Option LoadedUser) :
    Except Err Unit × Db :=
  match db.users.find? (fun u => u.id = id) with
  | none => (Except.error Err.notFound, db)
  | some _targetUser =>
    let isSelfUpdate := id = reqUser.id
    let roleBlock : Option Err :=
      match dto.roleId with
      | none => none
      | some r =>
        if r = 0 then none    -- falsy roleId: the whole block is skipped
        else if isSelfUpdate then some Err.conflict
        else if reqUserRoles = [] then some Err.forbidden
        else
          let userRoles := (db.userRoles.filter (fun ur => ur.userId = id)).filterMap
            (fun ur => db.roles.find? (fun ro => ro.id = ur.roleId))
          let targetRole : Sum Nat Role :=
            match userRoles with
            | [] => Sum.inl r
            | _ :: _ =>
              match getBestHierarchyRole userRoles with
              | some t => Sum.inr t
              | none => Sum.inl r   -- unreachable: userRoles is non-empty
          if isAuthUserBestRoleHigherOrEqual db authUser targetRole then none
          else some Err.forbidden
    match roleBlock with
    | some e => (Except.error e, db)
    | none =>
      if dto.email.any (fun e => !(e = "")
          && db.users.any (fun u => u.email = e && !(u.id = id))) then
        (Except.error Err.conflict, db)
      else
        match dto.roleId with
        | some _ => (Except.error Err.internalError, db)
        | none =>
          (Except.ok (), { db with users := db.users.map (fun u =>
            if u.id = id then
              { u with
                firstName := dto.firstName.getD u.firstName,
                lastName := dto.lastName.getD u.lastName,
                email := dto.email.getD u.email,
                password := dto.password.getD u.password }
            else u) })

/-- A policy rule as invoked by `AuthorizationService.authorize`: it receives
`this.user?.info` and the optional `{ user }` params object, and either
returns a boolean or throws (a `TypeError` when it dereferences an
`undefined` user). -/
def PolicyRule : Type :=
  Option UserRec → Option UserRec → Except Err Bool

/-- A policy class: constructed over the per-request authorization context
(`new policy(this)`), it maps an action name to its rule method when one
exists. -/
def Policy : Type :=
  Option LoadedUser → String → Option PolicyRule

/-- Permission name constants from `src/common/constants/permissions.ts`. -/
def PermissionsReadUser : String := "read_user"
def PermissionsCreateUser : String := "create_user"
def PermissionsUpdateUser : String := "update_user"
def PermissionsDeleteUser : String := "delete_user"
def PermissionsReadRole : String := "read_role"
def PermissionsCreateRole : String := "create_role"
def PermissionsUpdateRole : String := "update_role"
def PermissionsDeleteRole : String := "delete_role"

/-- Embeds `RolePolicy`: every action only requires the matching permission; the
`user` and `params` arguments are unused. -/
def rolePolicy : Policy := fun ctx action =>
  if action = "viewAny" then
    some (fun _ _ => Except.ok (hasPermission ctx PermissionsReadRole))
  else if action = "view" then
    some (fun _ _ => Except.ok (hasPermission ctx PermissionsReadRole))
  else if action = "create" then
    some (fun _ _ => Except.ok (hasPermission ctx PermissionsCreateRole))
  else if action = "update" then
    some (fun _ _ => Except.ok (hasPermission ctx PermissionsUpdateRole))
  else if action = "delete" then
    some (fun _ _ => Except.ok (hasPermission ctx PermissionsDeleteRole))
  else none

/-- The self-or-permission rule shared by `UserPolicy.view`, `update` and
`delete`: `user.id === params?.user.id || hasPermission(...)`.  Evaluating
`user.id` with `user` undefined throws a `TypeError`; `params?.user.id` is
`undefined` when params is absent (optional chaining short-circuits). -/
def userSelfOrPermissionRule (ctx : Option LoadedUser) (permission : String) :
    PolicyRule := fun user params =>
  match user with
  | none => Except.error Err.runtimeTypeError
  | some u =>
    Except.ok ((match params with
      | some target => decide (u.id = target.id)
      | none => false) || hasPermission ctx permission)

/-- Embeds `UserPolicy`: `viewAny`/`create` require a permission; `view`, `update`
and `delete` allow self or require the permission. -/
def userPolicy : Policy := fun ctx action =>
  if action = "viewAny" then
    some (fun _ _ => Except.ok (hasPermission ctx PermissionsReadUser))
  else if action = "view" then
    some (userSelfOrPermissionRule ctx PermissionsReadUser)
  else if action = "create" then
    some (fun _ _ => Except.ok (hasPermission ctx PermissionsCreateUser))
  else if action = "update" then
    some (userSelfOrPermissionRule ctx PermissionsUpdateUser)
  else if action = "delete" then
    some (userSelfOrPermissionRule ctx PermissionsDeleteUser)
  else none

/-- Embeds `AuthorizationService.authorize`: instantiate the policy over the current
context, look up the action; a missing method is an
`InternalServerErrorException`, a `false` result a `ForbiddenException`, an
exception inside the rule propagates uncaught. -/
def authorize (ctx : Option LoadedUser) (policy : Policy) (action : String)
    (params : Option UserRec) : Except Err Unit :=
  match policy ctx action with
  | some rule =>
    match rule (ctx.map (fun u => u.info)) params with
    | Except.error e => Except.error e
    | Except.ok true => Except.ok ()
    | Except.ok false => Except.error Err.forbidden
  | none => Except.error Err.internalError

/-- Number of roles in `rs` whose hierarchy equals `v`. -/
def countHier (rs : List Role) (v : Int) : Nat :=
  (rs.filter (fun r => r.hierarchy = v)).length

/-- The density invariant of the spec: the multiset of hierarchy values is
exactly one occurrence of each of `1, ..., N`, `N` the role count. -/
def Dense (rs : List Role) : Prop :=
  ∀ v : Int, countHier rs v = if 1 ≤ v ∧ v ≤ (rs.length : Int) then 1 else 0

/-- Store well-formedness used by the invariant proofs: role ids are unique
(primary key) and below the autoincrement counter. -/
def WfDb (db : Db) : Prop :=
  (db.roles.map (fun r => r.id)).Nodup ∧ ∀ r ∈ db.roles, r.id < db.nextRoleId

/-- A role mutation request: the three hierarchy-shifting operations of
`RolesService`. -/
inductive RoleOp where
  | createOp (dto : CreateRoleDto) (reqUser : LoadedUser)
  | updateOp (id : Nat) (dto : UpdateRoleDto) (reqUser : LoadedUser)
  | removeOp (id : Nat) (reqUser : LoadedUser)

/-- Apply one role operation with committing transactions. -/
def applyRoleOp (db : Db) : RoleOp → Except Err Unit × Db
  | RoleOp.createOp dto reqUser => rolesCreate true db dto reqUser
  | RoleOp.updateOp id dto reqUser => rolesUpdate true db id dto reqUser
  | RoleOp.removeOp id reqUser => rolesRemove true db id reqUser

/-- Run a sequence of role operations, returning the final store only when
every operation completed successfully. -/
def runRoleOps (db : Db) : List RoleOp → Option Db
  | [] => some db
  | op :: rest =>
    match applyRoleOp db op with
    | (Except.ok _, db2) => runRoleOps db2 rest
    | (Except.error _, _) => none

/-- Side condition of the amended density claim: a create must request a
rank no more than one past the current role count, and an update must not
change the rank of the target. -/
def roleOpInRange (db : Db) : RoleOp → Prop
  | RoleOp.createOp dto _ => dto.hierarchy ≤ (db.roles.length : Int) + 1
  | RoleOp.updateOp id dto _ => ∀ h, dto.hierarchy = some h →
      ∃ r, db.roles.find? (fun r0 => r0.id = id) = some r ∧ r.hierarchy = h
  | RoleOp.removeOp _ _ => True

/-- All operations of a run satisfy `roleOpInRange` at their pre-state. -/
def roleOpsInRange : Db → List RoleOp → Prop
  | _, [] => True
  | db, op :: rest =>
    roleOpInRange db op ∧ roleOpsInRange (applyRoleOp db op).2 rest

theorem foldl_bestStep_spec (t : List Role) (a : Role) :
    (t.foldl bestStep a = a ∨ t.foldl bestStep a ∈ t) ∧
    a.hierarchy ≤ (t.foldl bestStep a).hierarchy ∧
    ∀ x ∈ t, x.hierarchy ≤ (t.foldl bestStep a).hierarchy := by
  induction t generalizing a with
  | nil => simp
  | cons c t ih =>
    have h := ih (bestStep a c)
    obtain ⟨hmem, hle, hall⟩ := h
    refine ⟨?_, ?_, ?_⟩
    · rcases hmem with h1 | h1
      · rw [List.foldl_cons, h1]
        unfold bestStep
        split
        · left; rfl
        · right; simp
      · right
        rw [List.foldl_cons]
        exact List.mem_cons_of_mem c h1
    · rw [List.foldl_cons]
      refine le_trans ?_ hle
      unfold bestStep
      split
      · exact le_refl _
      · omega
    · intro x hx
      rw [List.foldl_cons]
      rcases List.mem_cons.mp hx with h1 | h1
      · subst h1
        refine le_trans ?_ hle
        unfold bestStep
        split
        · omega
        · exact le_refl _
      · exact hall x h1

/-- C4: `getBestHierarchyRole` returns `none` on the empty list, and on a
non-empty list returns a member of the list whose hierarchy is the
numerically largest hierarchy value present. -/
theorem c4_best_role (roles : List Role) :
    (roles = [] → getBestHierarchyRole roles = none) ∧
    (roles ≠ [] → ∃ r, getBestHierarchyRole roles = some r ∧ r ∈ roles ∧
      ∀ x ∈ roles, x.hierarchy ≤ r.hierarchy) := by
  constructor
  · intro h; subst h; rfl
  · intro h
    cases roles with
    | nil => exact absurd rfl h
    | cons a t =>
      refine ⟨t.foldl bestStep a, rfl, ?_, ?_⟩
      · rcases (foldl_bestStep_spec t a).1 with h1 | h1
        · rw [h1]; exact List.mem_cons_self a t
        · exact List.mem_cons_of_mem a h1
      · intro x hx
        rcases List.mem_cons.mp hx with h1 | h1
        · rw [h1]; exact (foldl_bestStep_spec t a).2.1
        · exact (foldl_bestStep_spec t a).2.2 x h1

/-- C4 witness: on the concrete list `[r1, r2]` the best role is the second
one, whose hierarchy 5 is the maximum. -/
theorem c4_best_role_witness :
    ([⟨1, "a", 2⟩, ⟨2, "b", 5⟩] : List Role) ≠ [] ∧
    ∃ r, getBestHierarchyRole [⟨1, "a", 2⟩, ⟨2, "b", 5⟩] = some r ∧
      r ∈ ([⟨1, "a", 2⟩, ⟨2, "b", 5⟩] : List Role) ∧
      ∀ x ∈ ([⟨1, "a", 2⟩, ⟨2, "b", 5⟩] : List Role), x.hierarchy ≤ r.hierarchy :=
  ⟨by decide, (c4_best_role [⟨1, "a", 2⟩, ⟨2, "b", 5⟩]).2 (by decide)⟩

/-- C3: `isAuthUserBestRoleHigherOrEqual` is true exactly when both the
best role of the user and the target role resolve and the user best-role
hierarchy is numerically at most that of the target; if either side is missing it
returns false (it never throws: the function is total). -/
theorem c3_higher_or_equal (db : Db) (user : Option LoadedUser)
    (role : Sum Nat Role) :
    (isAuthUserBestRoleHigherOrEqual db user role = true ↔
      ∃ best target, getAuthUserBestHierarchyRole user = some best ∧
        resolveRole db role = some target ∧ best.hierarchy ≤ target.hierarchy) ∧
    ((getAuthUserBestHierarchyRole user = none ∨ resolveRole db role = none) →
      isAuthUserBestRoleHigherOrEqual db user role = false) := by
  constructor
  · unfold isAuthUserBestRoleHigherOrEqual
    cases hres : resolveRole db role with
    | none => simp [hres]
    | some target =>
      cases hbest : getAuthUserBestHierarchyRole user with
      | none => simp [hbest]
      | some best => simp [hbest]
  · intro h
    rcases h with h | h
    · cases hres : resolveRole db role <;>
        simp [isAuthUserBestRoleHigherOrEqual, hres, h]
    · simp [isAuthUserBestRoleHigherOrEqual, h]

/-- C3 witness: with no authenticated user the comparison against role id 1
is false. -/
theorem c3_higher_or_equal_witness :
    isAuthUserBestRoleHigherOrEqual ⟨[⟨1, "a", 1⟩], [], [], [], [], 2⟩ none (Sum.inl 1) = false :=
  (c3_higher_or_equal ⟨[⟨1, "a", 1⟩], [], [], [], [], 2⟩ none (Sum.inl 1)).2 (Or.inl rfl)

theorem countHier_nil (v : Int) : countHier [] v = 0 := rfl

theorem countHier_cons (r : Role) (t : List Role) (v : Int) :
    countHier (r :: t) v = (if r.hierarchy = v then 1 else 0) + countHier t v := by
  by_cases h : r.hierarchy = v <;> simp [countHier, List.filter_cons, h] <;> omega

theorem countHier_append (a b : List Role) (v : Int) :
    countHier (a ++ b) v = countHier a v + countHier b v := by
  simp [countHier, List.filter_append]

theorem countHier_shiftGE (h : Int) (rs : List Role) (v : Int) :
    countHier (shiftRolesGE h rs) v =
      if v < h then countHier rs v
      else if v = h then 0
      else countHier rs (v - 1) := by
  induction rs with
  | nil =>
    simp only [shiftRolesGE, List.map_nil, countHier, List.filter_nil, List.length_nil]
    split_ifs <;> rfl
  | cons r t ih =>
    have hc : shiftRolesGE h (r :: t)
        = (if r.hierarchy ≥ h then { r with hierarchy := r.hierarchy + 1 } else r)
          :: shiftRolesGE h t := by
      simp [shiftRolesGE]
    rw [hc]
    simp only [countHier_cons, ih]
    by_cases h1 : r.hierarchy ≥ h <;>
      simp only [h1, if_true, if_false, ite_true, ite_false] <;>
      split_ifs <;> omega

theorem countHier_perm {rs rs2 : List Role} (hp : rs.Perm rs2) (v : Int) :
    countHier rs v = countHier rs2 v := by
  unfold countHier
  exact (hp.filter _).length_eq

theorem countHier_pos_iff_any (rs : List Role) (v : Int) :
    ¬ countHier rs v = 0 ↔ rs.any (fun r => r.hierarchy = v) = true := by
  induction rs with
  | nil => simp [countHier]
  | cons r t ih =>
    rw [countHier_cons]
    by_cases h : r.hierarchy = v <;> simp [h, ← ih]

theorem countHier_pos_of_mem {rs : List Role} {r : Role} (h : r ∈ rs) :
    ¬ countHier rs r.hierarchy = 0 :=
  (countHier_pos_iff_any rs r.hierarchy).mpr
    (List.any_eq_true.mpr ⟨r, h, by simp⟩)

theorem ids_shiftGE (h : Int) (rs : List Role) :
    (shiftRolesGE h rs).map (fun r => r.id) = rs.map (fun r => r.id) := by
  induction rs with
  | nil => rfl
  | cons r t ih =>
    by_cases h1 : r.hierarchy ≥ h <;> simp [shiftRolesGE, h1] at ih ⊢ <;> exact ih

theorem ids_decGT (d : Int) (rs : List Role) :
    (decRolesGT d rs).map (fun r => r.id) = rs.map (fun r => r.id) := by
  induction rs with
  | nil => rfl
  | cons r t ih =>
    by_cases h1 : r.hierarchy > d <;> simp [decRolesGT, h1] at ih ⊢ <;> exact ih

theorem map_if_id_eq_self (t : List Role) (id : Nat) (g : Role → Role)
    (h : ∀ x ∈ t, ¬ x.id = id) :
    t.map (fun r => if r.id = id then g r else r) = t := by
  induction t with
  | nil => rfl
  | cons a t ih =>
    have ha := h a (List.mem_cons_self a t)
    simp only [List.map_cons, ha, if_false, ite_false]
    rw [ih (fun x hx => h x (List.mem_cons_of_mem a hx))]

theorem find_erase_perm (rs : List Role) (id : Nat) (r0 : Role)
    (hnd : (rs.map (fun r => r.id)).Nodup)
    (hf : rs.find? (fun r => r.id = id) = some r0) :
    rs.Perm (r0 :: rs.filter (fun r => ¬ r.id = id)) := by
  induction rs with
  | nil => simp at hf
  | cons r t ih =>
    simp only [List.map_cons, List.nodup_cons] at hnd
    by_cases h1 : r.id = id
    · rw [List.find?_cons_of_pos _ (by simp [h1])] at hf
      injection hf with hf
      subst hf
      have htf : t.filter (fun r => ¬ r.id = id) = t := by
        apply List.filter_eq_self.mpr
        intro x hx
        simp only [decide_eq_true_eq, decide_not, Bool.not_eq_true']
        have : ¬ x.id = r.id := fun hc => hnd.1 (hc ▸ List.mem_map_of_mem (fun r => r.id) hx)
        simp only [h1] at this
        exact decide_eq_false this
      rw [List.filter_cons_of_neg (by simp [h1]), htf]
    · rw [List.find?_cons_of_neg _ (by simp [h1])] at hf
      have hperm := ih hnd.2 hf
      rw [List.filter_cons_of_pos (by simp [h1])]
      exact (hperm.cons r).trans (List.Perm.swap r0 r _)

theorem countHier_setRole (rs : List Role) (id : Nat) (r0 : Role) (n : String) (v : Int)
    (hnd : (rs.map (fun r => r.id)).Nodup)
    (hf : rs.find? (fun r => r.id = id) = some r0) :
    countHier (rs.map (fun r =>
      if r.id = id then { r with name := n, hierarchy := r0.hierarchy } else r)) v
      = countHier rs v := by
  induction rs with
  | nil => simp at hf
  | cons r t ih =>
    simp only [List.map_cons, List.nodup_cons] at hnd
    by_cases h1 : r.id = id
    · rw [List.find?_cons_of_pos _ (by simp [h1])] at hf
      have hr0 : r0 = r := by injection hf with hf; exact hf.symm
      have htf : t.map (fun x =>
          if x.id = id then { x with name := n, hierarchy := r0.hierarchy } else x) = t := by
        apply map_if_id_eq_self
        intro x hx hc
        have hx2 : x.id = r.id := hc.trans h1.symm
        exact hnd.1 (hx2 ▸ List.mem_map_of_mem (fun r => r.id) hx)
      rw [List.map_cons]
      simp only [if_pos h1, htf]
      rw [countHier_cons, countHier_cons]
      simp [hr0]
    · rw [List.find?_cons_of_neg _ (by simp [h1])] at hf
      rw [List.map_cons]
      simp only [if_neg h1]
      rw [countHier_cons, countHier_cons, ih hnd.2 hf]

theorem countHier_decGT (d : Int) (rs : List Role) (v : Int) :
    countHier (decRolesGT d rs) v =
      if v < d then countHier rs v
      else if v = d then countHier rs d + countHier rs (d + 1)
      else countHier rs (v + 1) := by
  induction rs with
  | nil =>
    simp only [decRolesGT, List.map_nil, countHier, List.filter_nil, List.length_nil]
    split_ifs <;> rfl
  | cons r t ih =>
    have hc : decRolesGT d (r :: t)
        = (if r.hierarchy > d then { r with hierarchy := r.hierarchy - 1 } else r)
          :: decRolesGT d t := by
      simp [decRolesGT]
    rw [hc]
    simp only [countHier_cons, ih]
    by_cases h1 : r.hierarchy > d <;>
      simp only [h1, if_true, if_false, ite_true, ite_false] <;>
      split_ifs <;> omega

theorem rolesCreate_ok_inv (db : Db) (dto : CreateRoleDto) (u : LoadedUser) (db2 : Db)
    (hwf : WfDb db) (hD : Dense db.roles)
    (hle : dto.hierarchy ≤ (db.roles.length : Int) + 1)
    (hok : rolesCreate true db dto u = (Except.ok (), db2)) :
    WfDb db2 ∧ Dense db2.roles := by
  unfold rolesCreate at hok
  split at hok
  · simp at hok
  split at hok
  · simp at hok
  split at hok
  · simp at hok
  split at hok
  · simp at hok
  rename_i best hbest
  split at hok
  · simp at hok
  split at hok
  · simp at hok
  rename_i hbest0 hbestlt
  rw [if_pos rfl] at hok
  simp only [Prod.mk.injEq, true_and] at hok
  subst hok
  dsimp only
  by_cases hex : db.roles.any (fun r => r.hierarchy = dto.hierarchy) <;>
    simp only [hex, Bool.false_eq_true, eq_self_iff_true, if_true, if_false,
      ite_true, ite_false]
  · -- requested rank occupied: shift then insert
    have hR : 1 ≤ dto.hierarchy ∧ dto.hierarchy ≤ (db.roles.length : Int) := by
      have := (countHier_pos_iff_any db.roles dto.hierarchy).mpr hex
      rw [hD dto.hierarchy] at this
      by_contra hc
      rw [if_neg hc] at this
      exact this rfl
    constructor
    · constructor
      · have hids : ((shiftRolesGE dto.hierarchy db.roles
            ++ [(⟨db.nextRoleId, dto.name, dto.hierarchy⟩ : Role)]).map (fun r => r.id))
            = db.roles.map (fun r => r.id) ++ [db.nextRoleId] := by
          rw [List.map_append, ids_shiftGE]
          rfl
        rw [hids, List.nodup_append]
        refine ⟨hwf.1, by simp, ?_⟩
        intro i hi
        simp only [List.mem_singleton]
        rcases List.mem_map.mp hi with ⟨r, hr, hri⟩
        have := hwf.2 r hr
        omega
      · intro r hr
        dsimp only
        rcases List.mem_append.mp hr with hr | hr
        · rcases List.mem_map.mp hr with ⟨r0, hr0, hrr⟩
          have := hwf.2 r0 hr0
          have : r.id = r0.id := by rw [← hrr]; split <;> rfl
          simp only [this]
          have := hwf.2 r0 hr0
          omega
        · simp only [List.mem_singleton] at hr
          simp [hr]
    · intro v
      rw [countHier_append, countHier_shiftGE, countHier_cons, countHier_nil,
        hD v, hD (v - 1)]
      have hlen : ((shiftRolesGE dto.hierarchy db.roles
          ++ [(⟨db.nextRoleId, dto.name, dto.hierarchy⟩ : Role)]).length : Int)
          = (db.roles.length : Int) + 1 := by
        simp [shiftRolesGE]
      rw [hlen]
      dsimp only
      split_ifs <;> omega
  · -- requested rank free: plain append, forced to rank N+1
    have hR0 : countHier db.roles dto.hierarchy = 0 := by
      by_contra hc
      exact hex ((countHier_pos_iff_any db.roles dto.hierarchy).mp hc)
    have hRout : ¬ (1 ≤ dto.hierarchy ∧ dto.hierarchy ≤ (db.roles.length : Int)) := by
      intro hc
      rw [hD dto.hierarchy, if_pos hc] at hR0
      exact Nat.one_ne_zero hR0
    have hRn : dto.hierarchy = (db.roles.length : Int) + 1 := by
      have h1 : 0 < best.hierarchy := by omega
      omega
    constructor
    · constructor
      · have hids : ((db.roles
            ++ [(⟨db.nextRoleId, dto.name, dto.hierarchy⟩ : Role)]).map (fun r => r.id))
            = db.roles.map (fun r => r.id) ++ [db.nextRoleId] := by
          rw [List.map_append]; rfl
        rw [hids, List.nodup_append]
        refine ⟨hwf.1, by simp, ?_⟩
        intro i hi
        simp only [List.mem_singleton]
        rcases List.mem_map.mp hi with ⟨r, hr, hri⟩
        have := hwf.2 r hr
        omega
      · intro r hr
        dsimp only
        rcases List.mem_append.mp hr with hr | hr
        · have := hwf.2 r hr
          omega
        · simp only [List.mem_singleton] at hr
          simp [hr]
    · intro v
      rw [countHier_append, countHier_cons, countHier_nil, hD v]
      have hlen : ((db.roles
          ++ [(⟨db.nextRoleId, dto.name, dto.hierarchy⟩ : Role)]).length : Int)
          = (db.roles.length : Int) + 1 := by
        simp
      rw [hlen]
      dsimp only
      split_ifs <;> omega

theorem ids_map_preserve (rs : List Role) (f : Role → Role)
    (hf : ∀ r, (f r).id = r.id) :
    (rs.map f).map (fun r => r.id) = rs.map (fun r => r.id) := by
  induction rs with
  | nil => rfl
  | cons r t ih => simp [hf, ih]

theorem setRole_roles_inv (rs : List Role) (nrid : Nat) (id : Nat)
    (existingRole : Role) (n : String)
    (hnd : (rs.map (fun r => r.id)).Nodup)
    (hbound : ∀ r ∈ rs, r.id < nrid)
    (hD : Dense rs)
    (hfind : rs.find? (fun r => r.id = id) = some existingRole) :
    (((rs.map (fun r => if r.id = id then
        { r with name := n, hierarchy := existingRole.hierarchy } else r)).map
        (fun r => r.id)).Nodup
      ∧ ∀ r ∈ rs.map (fun r => if r.id = id then
        { r with name := n, hierarchy := existingRole.hierarchy } else r), r.id < nrid)
      ∧ Dense (rs.map (fun r => if r.id = id then
        { r with name := n, hierarchy := existingRole.hierarchy } else r)) := by
  have hids : ((rs.map (fun r => if r.id = id then
      { r with name := n, hierarchy := existingRole.hierarchy } else r)).map
      (fun r => r.id)) = rs.map (fun r => r.id) := by
    apply ids_map_preserve
    intro r
    split <;> rfl
  refine ⟨⟨by rw [hids]; exact hnd, ?_⟩, ?_⟩
  · intro r hr
    rcases List.mem_map.mp hr with ⟨r0, hr0, hrr⟩
    have hid : r.id = r0.id := by rw [← hrr]; split <;> rfl
    rw [hid]
    exact hbound r0 hr0
  · intro v
    rw [countHier_setRole rs id existingRole n v hnd hfind, hD v]
    simp

theorem rolesUpdate_ok_inv (db : Db) (id : Nat) (dto : UpdateRoleDto)
    (u : LoadedUser) (db2 : Db)
    (hwf : WfDb db) (hD : Dense db.roles)
    (hres : ∀ h, dto.hierarchy = some h →
      ∃ r, db.roles.find? (fun r0 => r0.id = id) = some r ∧ r.hierarchy = h)
    (hok : rolesUpdate true db id dto u = (Except.ok (), db2)) :
    WfDb db2 ∧ Dense db2.roles := by
  unfold rolesUpdate at hok
  split at hok
  · simp at hok
  rename_i existingRole hfind
  split at hok
  · simp at hok
  split at hok
  · simp at hok
  split at hok
  · simp at hok
  split at hok
  · simp at hok
  rename_i best hbest
  split at hok
  · simp at hok
  split at hok
  · simp at hok
  rw [if_pos rfl] at hok
  cases hh : dto.hierarchy with
  | none =>
    rw [hh] at hok
    dsimp only [Option.getD] at hok
    simp only [Prod.mk.injEq, true_and] at hok
    subst hok
    unfold WfDb
    dsimp only
    exact setRole_roles_inv db.roles db.nextRoleId id existingRole
      (dto.name.getD existingRole.name) hwf.1 hwf.2 hD hfind
  | some h =>
    obtain ⟨r, hr1, hr2⟩ := hres h hh
    rw [hfind] at hr1
    injection hr1 with hr1
    have heq : h = existingRole.hierarchy := by rw [hr1]; exact hr2.symm
    rw [hh] at hok
    dsimp only [Option.getD] at hok
    rw [if_pos heq] at hok
    rw [heq] at hok
    simp only [Prod.mk.injEq, true_and] at hok
    subst hok
    unfold WfDb
    dsimp only
    exact setRole_roles_inv db.roles db.nextRoleId id existingRole
      (dto.name.getD existingRole.name) hwf.1 hwf.2 hD hfind

theorem rolesRemove_ok_inv (db : Db) (id : Nat) (u : LoadedUser) (db2 : Db)
    (hwf : WfDb db) (hD : Dense db.roles)
    (hok : rolesRemove true db id u = (Except.ok (), db2)) :
    WfDb db2 ∧ Dense db2.roles := by
  unfold rolesRemove at hok
  split at hok
  · simp at hok
  rename_i roleToDelete hfind
  split at hok
  · simp at hok
  rename_i best hbest
  split at hok
  · simp at hok
  split at hok
  · simp at hok
  split at hok
  · simp at hok
  rw [if_pos rfl] at hok
  simp only [Prod.mk.injEq, true_and] at hok
  subst hok
  unfold WfDb
  dsimp only
  have hperm := find_erase_perm db.roles id roleToDelete hwf.1 hfind
  have hmem : roleToDelete ∈ db.roles := List.mem_of_find?_eq_some hfind
  have hdh : 1 ≤ roleToDelete.hierarchy
      ∧ roleToDelete.hierarchy ≤ (db.roles.length : Int) := by
    have hpos := countHier_pos_of_mem hmem
    rw [hD roleToDelete.hierarchy] at hpos
    by_contra hc
    rw [if_neg hc] at hpos
    exact hpos rfl
  have hflen : (db.roles.filter (fun r => ¬ r.id = id)).length + 1
      = db.roles.length := by
    have := hperm.length_eq
    simp only [List.length_cons] at this
    omega
  have hcntf : ∀ v, countHier (db.roles.filter (fun r => ¬ r.id = id)) v
      = countHier db.roles v - (if roleToDelete.hierarchy = v then 1 else 0) := by
    intro v
    have := countHier_perm hperm v
    rw [countHier_cons] at this
    omega
  have hids : ((decRolesGT roleToDelete.hierarchy
      (db.roles.filter (fun r => ¬ r.id = id))).map (fun r => r.id))
      = (db.roles.filter (fun r => ¬ r.id = id)).map (fun r => r.id) := by
    apply ids_map_preserve
    intro r
    split <;> rfl
  have hsub : List.Sublist ((db.roles.filter (fun r => ¬ r.id = id)).map (fun r => r.id))
      (db.roles.map (fun r => r.id)) :=
    (db.roles.filter_sublist).map (fun r => r.id)
  refine ⟨⟨?_, ?_⟩, ?_⟩
  · rw [hids]
    exact hwf.1.sublist hsub
  · intro r hr
    rcases List.mem_map.mp hr with ⟨r0, hr0, hrr⟩
    have hid : r.id = r0.id := by rw [← hrr]; split <;> rfl
    rw [hid]
    exact hwf.2 r0 (List.mem_of_mem_filter hr0)
  · intro v
    rw [countHier_decGT, hcntf v, hcntf roleToDelete.hierarchy,
      hcntf (roleToDelete.hierarchy + 1), hcntf (v + 1),
      hD v, hD roleToDelete.hierarchy, hD (roleToDelete.hierarchy + 1), hD (v + 1)]
    have hlen : ((decRolesGT roleToDelete.hierarchy
        (db.roles.filter (fun r => ¬ r.id = id))).length)
        = (db.roles.filter (fun r => ¬ r.id = id)).length := by
      simp [decRolesGT]
    rw [hlen]
    split_ifs <;> omega

theorem runRoleOps_inv (ops : List RoleOp) : ∀ db db2 : Db,
    WfDb db → Dense db.roles → runRoleOps db ops = some db2 →
    roleOpsInRange db ops → WfDb db2 ∧ Dense db2.roles := by
  induction ops with
  | nil =>
    intro db db2 hwf hD hrun _
    simp only [runRoleOps] at hrun
    injection hrun with hrun
    subst hrun
    exact ⟨hwf, hD⟩
  | cons op rest ih =>
    intro db db2 hwf hD hrun hres
    obtain ⟨hres1, hres2⟩ := hres
    unfold runRoleOps at hrun
    cases op with
    | createOp dto u0 =>
      simp only [roleOpInRange] at hres1
      simp only [applyRoleOp] at hrun hres2
      rcases hap : rolesCreate true db dto u0 with ⟨res, dbx⟩
      rw [hap] at hrun hres2
      cases res with
      | error e => simp at hrun
      | ok v =>
        cases v
        dsimp only at hrun hres2
        have hstep := rolesCreate_ok_inv db dto u0 dbx hwf hD hres1 hap
        exact ih dbx db2 hstep.1 hstep.2 hrun hres2
    | updateOp rid dto u0 =>
      simp only [roleOpInRange] at hres1
      simp only [applyRoleOp] at hrun hres2
      rcases hap : rolesUpdate true db rid dto u0 with ⟨res, dbx⟩
      rw [hap] at hrun hres2
      cases res with
      | error e => simp at hrun
      | ok v =>
        cases v
        dsimp only at hrun hres2
        have hstep := rolesUpdate_ok_inv db rid dto u0 dbx hwf hD hres1 hap
        exact ih dbx db2 hstep.1 hstep.2 hrun hres2
    | removeOp rid u0 =>
      simp only [applyRoleOp] at hrun hres2
      rcases hap : rolesRemove true db rid u0 with ⟨res, dbx⟩
      rw [hap] at hrun hres2
      cases res with
      | error e => simp at hrun
      | ok v =>
        cases v
        dsimp only at hrun hres2
        have hstep := rolesRemove_ok_inv db rid u0 dbx hwf hD hap
        exact ih dbx db2 hstep.1 hstep.2 hrun hres2

/-- C1 (amended): starting from a well-formed store whose hierarchy multiset is
exactly one occurrence of each rank 1..N, every successfully completed sequence
of role creates that request a rank at most one past the current role count,
role updates that do not change the rank of the target role, and role deletes,
yields a store whose hierarchy multiset is exactly 1..N2 with N2 the new role
count.  (As stated over all create/update/delete sequences the claim is false:
a create may request a rank more than one past the count and a rank-changing
update leaves a gap behind; see the counterexample.) -/
theorem c1_density_amended (ops : List RoleOp) (db db2 : Db)
    (hwf : WfDb db) (hD : Dense db.roles)
    (hrun : runRoleOps db ops = some db2)
    (hres : roleOpsInRange db ops) :
    Dense db2.roles :=
  (runRoleOps_inv ops db db2 hwf hD hrun hres).2

/-- C1 witness: from dense ranks 1,2, an in-range create at rank 3 succeeds
and the result is dense again. -/
theorem c1_density_amended_witness :
    Dense ((⟨[⟨1, "a", 1⟩, ⟨2, "b", 2⟩, ⟨3, "c", 3⟩], [], [], [], [], 4⟩ : Db)).roles :=
  c1_density_amended
    [RoleOp.createOp ⟨"c", 3, []⟩ ⟨⟨10, "x", "y", "e", "p"⟩, [⟨1, "a", 1⟩], []⟩]
    ⟨[⟨1, "a", 1⟩, ⟨2, "b", 2⟩], [], [], [], [], 3⟩ _
    ⟨by decide, by decide⟩
    (by
      intro v
      by_cases h1 : (1 : Int) = v <;> by_cases h2 : (2 : Int) = v <;>
        simp [countHier, List.filter_cons, h1, h2] <;> (try split_ifs) <;> omega)
    (by decide)
    ⟨by simp only [roleOpInRange]; decide, trivial⟩

/-- C1 counterexample: from the dense state with ranks 1,2, an actor whose
best role has rank 2 successfully creates a role at rank 4; the result has 3
roles but none of rank 3, so the hierarchy multiset is not 1,2,3. -/
theorem c1_density_counterexample :
    (rolesCreate true ⟨[⟨1, "a", 1⟩, ⟨2, "b", 2⟩], [], [], [], [], 3⟩
      ⟨"c", 4, []⟩ ⟨⟨10, "x", "y", "e", "p"⟩, [⟨2, "b", 2⟩], []⟩).1 = Except.ok ()
    ∧ (rolesCreate true ⟨[⟨1, "a", 1⟩, ⟨2, "b", 2⟩], [], [], [], [], 3⟩
      ⟨"c", 4, []⟩ ⟨⟨10, "x", "y", "e", "p"⟩, [⟨2, "b", 2⟩], []⟩).2.roles.length = 3
    ∧ countHier (rolesCreate true ⟨[⟨1, "a", 1⟩, ⟨2, "b", 2⟩], [], [], [], [], 3⟩
      ⟨"c", 4, []⟩ ⟨⟨10, "x", "y", "e", "p"⟩, [⟨2, "b", 2⟩], []⟩).2.roles 3 = 0 :=
  ⟨rfl, rfl, rfl⟩

/-- C2: when, at role creation, the requested rank is already occupied and
the pre-checks pass (fresh name, valid permission subset, actor best role of
positive rank strictly above the requested rank), create increments the
hierarchy of every role with hierarchy >= R by one and inserts the new role
at R (and records its permission rows). -/
theorem c2_create_shift (db : Db) (dto : CreateRoleDto) (u : LoadedUser) (best : Role)
    (hname : db.roles.any (fun r => r.name = dto.name) = false)
    (hperm : (db.permissions.filter (fun p => p.id ∈ dto.permissionIds)).length
      = dto.permissionIds.length)
    (hsub : dto.permissionIds.filter
      (fun i => ¬ (u.permissions.map (fun p => p.id)).contains i) = [])
    (hbest : getAuthUserBestHierarchyRole (some u) = some best)
    (hbest0 : 0 < best.hierarchy)
    (hlt : best.hierarchy < dto.hierarchy)
    (hex : db.roles.any (fun r => r.hierarchy = dto.hierarchy) = true) :
    rolesCreate true db dto u = (Except.ok (), { db with
      roles := db.roles.map (fun r => if r.hierarchy ≥ dto.hierarchy
          then { r with hierarchy := r.hierarchy + 1 } else r)
        ++ [⟨db.nextRoleId, dto.name, dto.hierarchy⟩],
      rolePerms := db.rolePerms
        ++ dto.permissionIds.map (fun pid => ⟨db.nextRoleId, pid⟩),
      nextRoleId := db.nextRoleId + 1 }) := by
  unfold rolesCreate
  rw [if_neg (by simp [hname]), if_neg (by simp [hperm]), if_neg (not_not_intro hsub), hbest]
  dsimp only
  rw [if_neg (by omega), if_neg (by omega), if_pos rfl, if_pos hex]
  rfl

/-- C2 witness: the spec scenario.  From roles Super Admin at 1 and Admin at
2, an actor whose best role has rank 1 creates Manager at rank 2; Admin is
shifted to rank 3 and Manager inserted at rank 2. -/
theorem c2_create_shift_witness :
    rolesCreate true
      ⟨[⟨1, "Super Admin", 1⟩, ⟨2, "Admin", 2⟩], [], [], [], [], 3⟩
      ⟨"Manager", 2, []⟩
      ⟨⟨10, "x", "y", "e", "p"⟩, [⟨1, "Super Admin", 1⟩], []⟩
      = (Except.ok (), ⟨[⟨1, "Super Admin", 1⟩, ⟨2, "Admin", 3⟩, ⟨3, "Manager", 2⟩],
        [], [], [], [], 4⟩) := by
  have h := c2_create_shift
    ⟨[⟨1, "Super Admin", 1⟩, ⟨2, "Admin", 2⟩], [], [], [], [], 3⟩
    ⟨"Manager", 2, []⟩
    ⟨⟨10, "x", "y", "e", "p"⟩, [⟨1, "Super Admin", 1⟩], []⟩
    ⟨1, "Super Admin", 1⟩
    (by decide) (by decide) (by decide) (by decide) (by decide) (by decide) (by decide)
  exact h.trans rfl

/-- C6: with the earlier validation checks passing, role creation passes the
hierarchy gate exactly when the best-role hierarchy of the actor is strictly
numerically below the requested hierarchy; when the requested hierarchy is at
most the best rank of the actor, both create and a hierarchy-carrying update throw
UnauthorizedException and leave the store unchanged.  (For update the
requested hierarchy is taken at least 1, which DTO validation guarantees;
the code itself would skip the gate for the JavaScript-falsy value 0.) -/
theorem c6_escalation_guard :
    (∀ (txOk : Bool) (db : Db) (dto : CreateRoleDto) (u : LoadedUser) (best : Role),
      db.roles.any (fun r => r.name = dto.name) = false →
      (db.permissions.filter (fun p => p.id ∈ dto.permissionIds)).length
        = dto.permissionIds.length →
      dto.permissionIds.filter
        (fun i => ¬ (u.permissions.map (fun p => p.id)).contains i) = [] →
      getAuthUserBestHierarchyRole (some u) = some best →
      0 < best.hierarchy →
      ((dto.hierarchy ≤ best.hierarchy →
        rolesCreate txOk db dto u = (Except.error Err.unauthorized, db))
      ∧ (best.hierarchy < dto.hierarchy →
        (rolesCreate true db dto u).1 = Except.ok ())))
    ∧ (∀ (db : Db) (id : Nat) (dto : UpdateRoleDto) (u : LoadedUser)
        (existingRole best : Role) (h : Int),
      db.roles.find? (fun r => r.id = id) = some existingRole →
      dto.name.any (fun n => !(n = "") && !(n = existingRole.name)
        && db.roles.any (fun r => r.name = n)) = false →
      dto.permissionIds.any (fun ids =>
        !((db.permissions.filter (fun p => p.id ∈ ids)).length = ids.length)) = false →
      dto.permissionIds.any (fun ids => !((ids.filter
        (fun i => ¬ (u.permissions.map (fun p => p.id)).contains i)) = [])) = false →
      getAuthUserBestHierarchyRole (some u) = some best →
      0 < best.hierarchy →
      dto.hierarchy = some h →
      1 ≤ h →
      ((h ≤ best.hierarchy → ∀ txOk,
        rolesUpdate txOk db id dto u = (Except.error Err.unauthorized, db))
      ∧ (best.hierarchy < h →
        (rolesUpdate true db id dto u).1 = Except.ok ()))) := by
  constructor
  · intro txOk db dto u best hname hperm hsub hbest hbest0
    constructor
    · intro hle
      unfold rolesCreate
      rw [if_neg (by simp [hname]), if_neg (by simp [hperm]),
        if_neg (not_not_intro hsub), hbest]
      dsimp only
      rw [if_neg (by omega), if_pos hle]
    · intro hlt
      unfold rolesCreate
      rw [if_neg (by simp [hname]), if_neg (by simp [hperm]),
        if_neg (not_not_intro hsub), hbest]
      dsimp only
      rw [if_neg (by omega), if_neg (by omega), if_pos rfl]
  · intro db id dto u existingRole best h hfind hname hperm hsub hbest hbest0 hh h1
    constructor
    · intro hle txOk
      unfold rolesUpdate
      rw [hfind]
      dsimp only
      rw [if_neg (by rw [hname]; simp), if_neg (by rw [hperm]; simp),
        if_neg (by rw [hsub]; simp), hbest]
      dsimp only
      rw [if_neg (by omega), if_pos (by rw [hh]; simp; omega)]
    · intro hlt
      unfold rolesUpdate
      rw [hfind]
      dsimp only
      rw [if_neg (by rw [hname]; simp), if_neg (by rw [hperm]; simp),
        if_neg (by rw [hsub]; simp), hbest]
      dsimp only
      rw [if_neg (by omega), if_neg (by rw [hh]; simp; omega), if_pos rfl]

/-- C6 witness: an actor of best rank 1 is denied creating a role at rank 1
(store untouched) and allowed to move role 1 to rank 2. -/
theorem c6_escalation_guard_witness :
    rolesCreate true ⟨[⟨1, "a", 1⟩], [], [], [], [], 2⟩ ⟨"b", 1, []⟩
      ⟨⟨10, "x", "y", "e", "p"⟩, [⟨1, "a", 1⟩], []⟩
      = (Except.error Err.unauthorized, ⟨[⟨1, "a", 1⟩], [], [], [], [], 2⟩)
    ∧ (rolesUpdate true ⟨[⟨1, "a", 1⟩], [], [], [], [], 2⟩ 1 ⟨none, some 2, none⟩
      ⟨⟨10, "x", "y", "e", "p"⟩, [⟨1, "a", 1⟩], []⟩).1 = Except.ok () :=
  ⟨(c6_escalation_guard.1 true ⟨[⟨1, "a", 1⟩], [], [], [], [], 2⟩ ⟨"b", 1, []⟩
      ⟨⟨10, "x", "y", "e", "p"⟩, [⟨1, "a", 1⟩], []⟩ ⟨1, "a", 1⟩
      (by decide) (by decide) (by decide) (by decide) (by decide)).1 (by decide),
   (c6_escalation_guard.2 ⟨[⟨1, "a", 1⟩], [], [], [], [], 2⟩ 1 ⟨none, some 2, none⟩
      ⟨⟨10, "x", "y", "e", "p"⟩, [⟨1, "a", 1⟩], []⟩ ⟨1, "a", 1⟩ ⟨1, "a", 1⟩ 2
      (by decide) (by decide) (by decide) (by decide) (by decide) (by decide)
      (by decide) (by decide)).2 (by decide)⟩

/-- C7: a user-update request whose target id equals the id of the acting user and
which supplies a (nonzero) roleId is rejected with ConflictException before
any write, leaving the store unchanged, regardless of the roles of the actor,
permissions or hierarchy. -/
theorem c7_self_role_update (db : Db) (id : Nat) (dto : UpdateUserDto)
    (reqUser : UserRec) (reqUserRoles : List Role) (authUser : Option LoadedUser)
    (r : Nat) (target : UserRec)
    (hfind : db.users.find? (fun u0 => u0.id = id) = some target)
    (hself : id = reqUser.id)
    (hrid : dto.roleId = some r) (hr0 : ¬ r = 0) :
    usersUpdate db id dto reqUser reqUserRoles authUser
      = (Except.error Err.conflict, db) := by
  unfold usersUpdate
  rw [hfind]
  dsimp only
  rw [hrid]
  dsimp only
  rw [if_neg hr0, if_pos hself]

/-- C7 witness: user 10 updating their own record with roleId 5 is rejected
with a Conflict error even though they hold the strongest role. -/
theorem c7_self_role_update_witness :
    usersUpdate ⟨[], [], [], [], [⟨10, "A", "B", "a@b.c", "x"⟩], 1⟩ 10
      ⟨none, none, none, none, some 5⟩ ⟨10, "A", "B", "a@b.c", "x"⟩ [⟨1, "a", 1⟩]
      (some ⟨⟨10, "A", "B", "a@b.c", "x"⟩, [⟨1, "a", 1⟩], []⟩)
      = (Except.error Err.conflict, ⟨[], [], [], [], [⟨10, "A", "B", "a@b.c", "x"⟩], 1⟩) :=
  c7_self_role_update _ 10 _ _ _ _ 5 ⟨10, "A", "B", "a@b.c", "x"⟩
    (by decide) (by decide) (by decide) (by decide)

/-- C8 (amended): with an uninitialized context, hasPermission is false for
every permission name, the best-role query yields none, and every
permission-only policy check (all RolePolicy actions, UserPolicy viewAny and
create) completes with a Forbidden denial; but the self-or-permission rules
(UserPolicy view, update, delete) evaluate `user.id` on the missing user and
escape with an uncaught TypeError instead of a denial.  (As stated — "no use
of the context before initialization crashes" — the claim is false; see the
counterexample.) -/
theorem c8_uninitialized_amended :
    (∀ p, hasPermission none p = false)
    ∧ getAuthUserBestHierarchyRole none = none
    ∧ (∀ params, authorize none rolePolicy "viewAny" params = Except.error Err.forbidden)
    ∧ (∀ params, authorize none rolePolicy "view" params = Except.error Err.forbidden)
    ∧ (∀ params, authorize none rolePolicy "create" params = Except.error Err.forbidden)
    ∧ (∀ params, authorize none rolePolicy "update" params = Except.error Err.forbidden)
    ∧ (∀ params, authorize none rolePolicy "delete" params = Except.error Err.forbidden)
    ∧ (∀ params, authorize none userPolicy "viewAny" params = Except.error Err.forbidden)
    ∧ (∀ params, authorize none userPolicy "create" params = Except.error Err.forbidden)
    ∧ (∀ params, authorize none userPolicy "view" params
        = Except.error Err.runtimeTypeError)
    ∧ (∀ params, authorize none userPolicy "update" params
        = Except.error Err.runtimeTypeError)
    ∧ (∀ params, authorize none userPolicy "delete" params
        = Except.error Err.runtimeTypeError) :=
  ⟨fun _ => rfl, rfl, fun _ => rfl, fun _ => rfl, fun _ => rfl, fun _ => rfl,
   fun _ => rfl, fun _ => rfl, fun _ => rfl, fun _ => rfl, fun _ => rfl, fun _ => rfl⟩

/-- C8 counterexample: with an uninitialized context, the UserPolicy view
check dereferences the undefined user and escapes with a TypeError — an
unhandled exception, not a Forbidden denial. -/
theorem c8_uninitialized_counterexample :
    authorize none userPolicy "view" (some ⟨1, "a", "b", "e", "p"⟩)
      = Except.error Err.runtimeTypeError
    ∧ ¬ authorize none userPolicy "view" (some ⟨1, "a", "b", "e", "p"⟩)
      = Except.error Err.forbidden :=
  ⟨rfl, fun hc => by injection hc with hc2; exact absurd hc2 (by decide)⟩

/-- C5 (amended): role insert and role delete are all-or-nothing — whenever
they return an error (any pre-check failure or a failed transaction) the
store is unchanged; but a role update that changes the rank of the role to an
occupied slot commits the rank shift in a transaction separate from the
write, so when the write transaction fails the shifted rank space remains
observable despite the reported error.  (The unamended claim — every
hierarchy-shifting mutation is all-or-nothing — is false; see the
counterexample.) -/
theorem c5_atomicity_amended :
    (∀ (txOk : Bool) (db : Db) (dto : CreateRoleDto) (u : LoadedUser) (e : Err) (s : Db),
      rolesCreate txOk db dto u = (Except.error e, s) → s = db)
    ∧ (∀ (txOk : Bool) (db : Db) (id : Nat) (u : LoadedUser) (e : Err) (s : Db),
      rolesRemove txOk db id u = (Except.error e, s) → s = db)
    ∧ (∀ (db : Db) (id : Nat) (dto : UpdateRoleDto) (u : LoadedUser)
        (existingRole best : Role) (h : Int),
      db.roles.find? (fun r => r.id = id) = some existingRole →
      dto.name.any (fun n => !(n = "") && !(n = existingRole.name)
        && db.roles.any (fun r => r.name = n)) = false →
      dto.permissionIds.any (fun ids =>
        !((db.permissions.filter (fun p => p.id ∈ ids)).length = ids.length)) = false →
      dto.permissionIds.any (fun ids => !((ids.filter
        (fun i => ¬ (u.permissions.map (fun p => p.id)).contains i)) = [])) = false →
      getAuthUserBestHierarchyRole (some u) = some best →
      0 < best.hierarchy →
      dto.hierarchy = some h →
      best.hierarchy < h →
      ¬ h = existingRole.hierarchy →
      db.roles.any (fun r => r.hierarchy = h) = true →
      rolesUpdate false db id dto u
        = (Except.error Err.internalError, { db with roles := shiftRolesGE h db.roles })) := by
  refine ⟨?_, ?_, ?_⟩
  · intro txOk db dto u e s hok
    unfold rolesCreate at hok
    repeat' split at hok
    all_goals try exact (congrArg Prod.snd hok).symm
    all_goals simp at hok
  · intro txOk db id u e s hok
    unfold rolesRemove at hok
    repeat' split at hok
    all_goals try exact (congrArg Prod.snd hok).symm
    all_goals simp at hok
  · intro db id dto u existingRole best h hfind hname hperm hsub hbest hbest0 hh hlt hne hexany
    unfold rolesUpdate
    rw [hfind]
    dsimp only
    rw [if_neg (by rw [hname]; simp), if_neg (by rw [hperm]; simp),
      if_neg (by rw [hsub]; simp), hbest]
    dsimp only
    rw [if_neg (by omega), if_neg (by rw [hh]; simp; omega), hh]
    dsimp only
    rw [if_neg hne, if_pos hexany, if_neg (by simp)]

/-- C5 witness: a failed create transaction leaves the one-role store intact,
and a rank-moving update whose write transaction fails reports an internal
error while the committed shift is already visible. -/
theorem c5_atomicity_amended_witness :
    ((⟨[⟨1, "a", 1⟩], [], [], [], [], 2⟩ : Db) = ⟨[⟨1, "a", 1⟩], [], [], [], [], 2⟩)
    ∧ rolesUpdate false ⟨[⟨1, "a", 1⟩, ⟨2, "b", 2⟩, ⟨3, "c", 3⟩], [], [], [], [], 4⟩ 3
      ⟨none, some 2, none⟩ ⟨⟨10, "x", "y", "e", "p"⟩, [⟨1, "a", 1⟩], []⟩
      = (Except.error Err.internalError,
        ⟨[⟨1, "a", 1⟩, ⟨2, "b", 3⟩, ⟨3, "c", 4⟩], [], [], [], [], 4⟩) :=
  ⟨c5_atomicity_amended.1 false ⟨[⟨1, "a", 1⟩], [], [], [], [], 2⟩ ⟨"b", 2, []⟩
      ⟨⟨10, "x", "y", "e", "p"⟩, [⟨1, "a", 1⟩], []⟩ Err.internalError
      ⟨[⟨1, "a", 1⟩], [], [], [], [], 2⟩ rfl,
   (c5_atomicity_amended.2.2 ⟨[⟨1, "a", 1⟩, ⟨2, "b", 2⟩, ⟨3, "c", 3⟩], [], [], [], [], 4⟩ 3
      ⟨none, some 2, none⟩ ⟨⟨10, "x", "y", "e", "p"⟩, [⟨1, "a", 1⟩], []⟩
      ⟨3, "c", 3⟩ ⟨1, "a", 1⟩ 2 (by decide) (by decide) (by decide) (by decide)
      (by decide) (by decide) (by decide) (by decide) (by decide) (by decide)).trans rfl⟩

/-- C5 counterexample: from dense ranks 1,2,3, moving role 3 to the occupied
rank 2 with a write transaction that fails yields an error — yet the store
now holds ranks 1,3,4: the partial rank shift is observable, so the
read-shift-write sequence of update is not one atomic unit. -/
theorem c5_atomicity_counterexample :
    (rolesUpdate false ⟨[⟨1, "a", 1⟩, ⟨2, "b", 2⟩, ⟨3, "c", 3⟩], [], [], [], [], 4⟩ 3
      ⟨none, some 2, none⟩ ⟨⟨10, "x", "y", "e", "p"⟩, [⟨1, "a", 1⟩], []⟩).1
      = Except.error Err.internalError
    ∧ (rolesUpdate false ⟨[⟨1, "a", 1⟩, ⟨2, "b", 2⟩, ⟨3, "c", 3⟩], [], [], [], [], 4⟩ 3
      ⟨none, some 2, none⟩ ⟨⟨10, "x", "y", "e", "p"⟩, [⟨1, "a", 1⟩], []⟩).2.roles.map
        (fun r => r.hierarchy) = [1, 3, 4]
    ∧ ¬ (rolesUpdate false ⟨[⟨1, "a", 1⟩, ⟨2, "b", 2⟩, ⟨3, "c", 3⟩], [], [], [], [], 4⟩ 3
      ⟨none, some 2, none⟩ ⟨⟨10, "x", "y", "e", "p"⟩, [⟨1, "a", 1⟩], []⟩).2
      = ⟨[⟨1, "a", 1⟩, ⟨2, "b", 2⟩, ⟨3, "c", 3⟩], [], [], [], [], 4⟩ :=
  ⟨rfl, rfl, by decide⟩

theorem policy_rule_no_forbidden (policy : Policy)
    (hpol : policy = userPolicy ∨ policy = rolePolicy)
    (ctx : Option LoadedUser) (action : String) (rule : PolicyRule)
    (hr : policy ctx action = some rule)
    (user : Option UserRec) (params : Option UserRec) :
    ¬ rule user params = Except.error Err.forbidden := by
  rcases hpol with hp | hp <;> subst hp
  · unfold userPolicy at hr
    split_ifs at hr <;> injection hr with hr <;> subst hr <;> intro hcon
    · simp at hcon
    · unfold userSelfOrPermissionRule at hcon
      cases user <;> simp at hcon
    · simp at hcon
    · unfold userSelfOrPermissionRule at hcon
      cases user <;> simp at hcon
    · unfold userSelfOrPermissionRule at hcon
      cases user <;> simp at hcon
  · unfold rolePolicy at hr
    split_ifs at hr <;> injection hr with hr <;> subst hr <;> intro hcon <;> simp at hcon

/-- C9: for each of the two policy classes and any action name, authorize
throws ForbiddenException exactly when the bound rule evaluates to false,
completes without error exactly when the rule evaluates to true, and throws
InternalServerErrorException — never a denial — when the named action does
not exist as a method on the policy. -/
theorem c9_authorize_dispatch (policy : Policy) (ctx : Option LoadedUser)
    (action : String) (params : Option UserRec)
    (hpol : policy = userPolicy ∨ policy = rolePolicy) :
    (policy ctx action = none →
      authorize ctx policy action params = Except.error Err.internalError)
    ∧ (∀ rule, policy ctx action = some rule →
        (rule (ctx.map (fun u => u.info)) params = Except.ok false ↔
          authorize ctx policy action params = Except.error Err.forbidden))
    ∧ (∀ rule, policy ctx action = some rule →
        (rule (ctx.map (fun u => u.info)) params = Except.ok true ↔
          authorize ctx policy action params = Except.ok ())) := by
  refine ⟨?_, ?_, ?_⟩
  · intro hnone
    unfold authorize
    rw [hnone]
  · intro rule hr
    unfold authorize
    rw [hr]
    dsimp only
    cases hres : rule (ctx.map (fun u => u.info)) params with
    | error e =>
      constructor
      · intro hc; exact absurd hc (by simp)
      · intro hc
        injection hc with hc2
        subst hc2
        exact absurd hres (policy_rule_no_forbidden policy hpol ctx action rule hr _ params)
    | ok b =>
      cases b <;> simp
  · intro rule hr
    unfold authorize
    rw [hr]
    dsimp only
    cases hres : rule (ctx.map (fun u => u.info)) params with
    | error e => simp
    | ok b => cases b <;> simp

/-- C9 witness: a missing action method yields the Internal error, a false
rule yields Forbidden, and a true rule completes. -/
theorem c9_authorize_dispatch_witness :
    authorize none rolePolicy "bogus" none = Except.error Err.internalError
    ∧ authorize none rolePolicy "view" none = Except.error Err.forbidden
    ∧ authorize (some ⟨⟨1, "a", "b", "e", "p"⟩, [], [⟨7, "read_role"⟩]⟩)
        rolePolicy "view" none = Except.ok () :=
  ⟨(c9_authorize_dispatch rolePolicy none "bogus" none (Or.inr rfl)).1 rfl,
   ((c9_authorize_dispatch rolePolicy none "view" none (Or.inr rfl)).2.1
      _ rfl).mp rfl,
   ((c9_authorize_dispatch rolePolicy (some ⟨⟨1, "a", "b", "e", "p"⟩, [], [⟨7, "read_role"⟩]⟩)
      "view" none (Or.inr rfl)).2.2 _ rfl).mp rfl⟩

theorem nodup_of_filter_length (perms : List Permission) (ids : List Nat)
    (hpk : (perms.map (fun p => p.id)).Nodup)
    (hlen : (perms.filter (fun p => p.id ∈ ids)).length = ids.length) :
    ids.Nodup := by
  have hnd : ((perms.filter (fun p => p.id ∈ ids)).map (fun p => p.id)).Nodup :=
    hpk.sublist ((perms.filter_sublist).map (fun p => p.id))
  have hsubset : ((perms.filter (fun p => p.id ∈ ids)).map (fun p => p.id)) ⊆ ids := by
    intro x hx
    rcases List.mem_map.mp hx with ⟨p, hp, hpx⟩
    have h2 := (List.mem_filter.mp hp).2
    rw [← hpx]
    simpa using h2
  have hsp := List.subperm_of_subset hnd hsubset
  have hlen2 : ids.length
      ≤ ((perms.filter (fun p => p.id ∈ ids)).map (fun p => p.id)).length := by
    rw [List.length_map, hlen]
  exact ((hsp.perm_of_length_le hlen2).nodup_iff).mp hnd

theorem rolePerms_sync (rps : List RolePerm) (id : Nat) (ids : List Nat)
    (hpk2 : ((rps.filter (fun rp => rp.roleId = id)).map
      (fun rp => rp.permissionId)).Nodup)
    (hnd : ids.Nodup) (final : List Nat)
    (hfinal : final = (((rps.filter
        (fun rp => ¬ (rp.roleId = id ∧ ¬ ids.contains rp.permissionId)))
      ++ (ids.filter (fun p => ¬ ((rps.filter (fun rp => rp.roleId = id)).map
          (fun rp => rp.permissionId)).contains p)).map
        (fun pid => (⟨id, pid⟩ : RolePerm))).filter
        (fun rp => rp.roleId = id)).map (fun rp => rp.permissionId)) :
    (∀ pid, pid ∈ final ↔ pid ∈ ids) ∧ final.Nodup := by
  subst hfinal
  rw [List.filter_append, List.map_append]
  have hBfilter : (((ids.filter (fun p => ¬ ((rps.filter
      (fun rp => rp.roleId = id)).map (fun rp => rp.permissionId)).contains p)).map
      (fun pid => (⟨id, pid⟩ : RolePerm))).filter (fun rp => rp.roleId = id))
      = (ids.filter (fun p => ¬ ((rps.filter (fun rp => rp.roleId = id)).map
          (fun rp => rp.permissionId)).contains p)).map
        (fun pid => (⟨id, pid⟩ : RolePerm)) := by
    apply List.filter_eq_self.mpr
    intro x hx
    rcases List.mem_map.mp hx with ⟨pid, _, hpid⟩
    rw [← hpid]
    simp
  rw [hBfilter]
  have hBmap : ((ids.filter (fun p => ¬ ((rps.filter
      (fun rp => rp.roleId = id)).map (fun rp => rp.permissionId)).contains p)).map
      (fun pid => (⟨id, pid⟩ : RolePerm))).map (fun rp => rp.permissionId)
      = ids.filter (fun p => ¬ ((rps.filter (fun rp => rp.roleId = id)).map
          (fun rp => rp.permissionId)).contains p) := by
    rw [List.map_map]
    exact List.map_id _
  rw [hBmap]
  have hAsub : List.Sublist
      (((rps.filter (fun rp => ¬ (rp.roleId = id ∧ ¬ ids.contains rp.permissionId))).filter
        (fun rp => rp.roleId = id)).map (fun rp => rp.permissionId))
      ((rps.filter (fun rp => rp.roleId = id)).map (fun rp => rp.permissionId)) :=
    ((rps.filter_sublist).filter (fun rp => rp.roleId = id)).map (fun rp => rp.permissionId)
  have hAmem : ∀ x, x ∈ ((rps.filter
      (fun rp => ¬ (rp.roleId = id ∧ ¬ ids.contains rp.permissionId))).filter
      (fun rp => rp.roleId = id)).map (fun rp => rp.permissionId)
      ↔ x ∈ (rps.filter (fun rp => rp.roleId = id)).map (fun rp => rp.permissionId)
        ∧ x ∈ ids := by
    intro x
    constructor
    · intro hx
      rcases List.mem_map.mp hx with ⟨rp, hrp, hrpx⟩
      have h1 := List.mem_filter.mp hrp
      have h2 := List.mem_filter.mp h1.1
      have hrole : rp.roleId = id := by simpa using h1.2
      have hcont : x ∈ ids := by
        have := h2.2
        simp only [decide_not, Bool.not_eq_true', decide_eq_false_iff_not] at this
        rw [← hrpx]
        by_contra hc
        exact this ⟨hrole, by simpa using hc⟩
      refine ⟨List.mem_map.mpr ⟨rp, List.mem_filter.mpr ⟨h2.1, by simpa using hrole⟩, hrpx⟩, hcont⟩
    · intro ⟨hx1, hx2⟩
      rcases List.mem_map.mp hx1 with ⟨rp, hrp, hrpx⟩
      have h1 := List.mem_filter.mp hrp
      have hrole : rp.roleId = id := by simpa using h1.2
      refine List.mem_map.mpr ⟨rp, List.mem_filter.mpr ⟨List.mem_filter.mpr ⟨h1.1, ?_⟩, h1.2⟩, hrpx⟩
      simp [hrpx, hrole, hx2]
  have hBmem : ∀ x, x ∈ ids.filter (fun p => ¬ ((rps.filter
      (fun rp => rp.roleId = id)).map (fun rp => rp.permissionId)).contains p)
      ↔ x ∈ ids ∧ ¬ x ∈ (rps.filter (fun rp => rp.roleId = id)).map
        (fun rp => rp.permissionId) := by
    intro x
    rw [List.mem_filter]
    simp
  constructor
  · intro pid
    rw [List.mem_append, hAmem pid, hBmem pid]
    by_cases hmem : pid ∈ (rps.filter (fun rp => rp.roleId = id)).map
        (fun rp => rp.permissionId) <;> by_cases hin : pid ∈ ids <;> simp [hmem, hin]
  · apply List.Nodup.append
    · exact hpk2.sublist hAsub
    · exact hnd.filter _
    · intro x hx1 hx2
      have h1 := (hAmem x).mp hx1
      have h2 := (hBmem x).mp hx2
      exact h2.2 h1.1

/-- C10: after a successful role update that supplies permissionIds, the
stored permission ids of the role are exactly the supplied list: previously
assigned ids absent from the list are removed, listed ids not previously
assigned are added, and each listed id is present exactly once. -/
theorem c10_permission_sync (db : Db) (id : Nat) (dto : UpdateRoleDto)
    (u : LoadedUser) (db2 : Db) (ids : List Nat)
    (hpk1 : (db.permissions.map (fun p => p.id)).Nodup)
    (hpk2 : ((db.rolePerms.filter (fun rp => rp.roleId = id)).map
      (fun rp => rp.permissionId)).Nodup)
    (hids : dto.permissionIds = some ids)
    (hok : rolesUpdate true db id dto u = (Except.ok (), db2)) :
    (∀ pid, pid ∈ (db2.rolePerms.filter (fun rp => rp.roleId = id)).map
        (fun rp => rp.permissionId) ↔ pid ∈ ids)
    ∧ ((db2.rolePerms.filter (fun rp => rp.roleId = id)).map
        (fun rp => rp.permissionId)).Nodup := by
  unfold rolesUpdate at hok
  split at hok
  · simp at hok
  rename_i existingRole hfind
  split at hok
  · simp at hok
  split at hok
  · simp at hok
  rename_i hlenchk
  split at hok
  · simp at hok
  split at hok
  · simp at hok
  rename_i best hbest
  split at hok
  · simp at hok
  split at hok
  · simp at hok
  rw [if_pos rfl] at hok
  have hlen : (db.permissions.filter (fun p => p.id ∈ ids)).length = ids.length := by
    rw [hids] at hlenchk
    simpa using hlenchk
  have hnd : ids.Nodup := nodup_of_filter_length db.permissions ids hpk1 hlen
  rw [hids] at hok
  cases hh : dto.hierarchy with
  | none =>
    rw [hh] at hok
    dsimp only at hok
    simp only [Prod.mk.injEq, true_and] at hok
    subst hok
    dsimp only
    exact rolePerms_sync db.rolePerms id ids hpk2 hnd _ rfl
  | some h =>
    rw [hh] at hok
    dsimp only at hok
    split at hok
    · simp only [Prod.mk.injEq, true_and] at hok
      subst hok
      dsimp only
      exact rolePerms_sync db.rolePerms id ids hpk2 hnd _ rfl
    · split at hok
      · simp only [Prod.mk.injEq, true_and] at hok
        subst hok
        dsimp only
        exact rolePerms_sync db.rolePerms id ids hpk2 hnd _ rfl
      · simp only [Prod.mk.injEq, true_and] at hok
        subst hok
        dsimp only
        exact rolePerms_sync db.rolePerms id ids hpk2 hnd _ rfl

/-- C10 witness: updating role 1 (currently holding permissions 1 and 2) with
permissionIds = [2, 3] leaves it with exactly permissions 2 and 3. -/
theorem c10_permission_sync_witness :
    (∀ pid, pid ∈ (((rolesUpdate true
      ⟨[⟨1, "a", 1⟩], [⟨1, "p1"⟩, ⟨2, "p2"⟩, ⟨3, "p3"⟩], [⟨1, 1⟩, ⟨1, 2⟩], [], [], 2⟩ 1
      ⟨none, none, some [2, 3]⟩
      ⟨⟨10, "x", "y", "e", "p"⟩, [⟨1, "a", 1⟩],
        [⟨1, "p1"⟩, ⟨2, "p2"⟩, ⟨3, "p3"⟩]⟩).2.rolePerms.filter
        (fun rp => rp.roleId = 1)).map (fun rp => rp.permissionId))
      ↔ pid ∈ [2, 3])
    ∧ ((((rolesUpdate true
      ⟨[⟨1, "a", 1⟩], [⟨1, "p1"⟩, ⟨2, "p2"⟩, ⟨3, "p3"⟩], [⟨1, 1⟩, ⟨1, 2⟩], [], [], 2⟩ 1
      ⟨none, none, some [2, 3]⟩
      ⟨⟨10, "x", "y", "e", "p"⟩, [⟨1, "a", 1⟩],
        [⟨1, "p1"⟩, ⟨2, "p2"⟩, ⟨3, "p3"⟩]⟩).2.rolePerms.filter
        (fun rp => rp.roleId = 1)).map (fun rp => rp.permissionId))).Nodup :=
  c10_permission_sync
    ⟨[⟨1, "a", 1⟩], [⟨1, "p1"⟩, ⟨2, "p2"⟩, ⟨3, "p3"⟩], [⟨1, 1⟩, ⟨1, 2⟩], [], [], 2⟩ 1
    ⟨none, none, some [2, 3]⟩
    ⟨⟨10, "x", "y", "e", "p"⟩, [⟨1, "a", 1⟩], [⟨1, "p1"⟩, ⟨2, "p2"⟩, ⟨3, "p3"⟩]⟩
    _ [2, 3] (by decide) (by decide) (by decide) rfl

end Rbac
